import Mathlib

/-!
Verification development for the insolvency-scraper ingestion pipeline.

The Lean definitions below are shallow embeddings of the Python source:

* `Statstidende` — the resilient day fetcher `messagesearch_day` / `try_one`
  and the notice-document normalizer `normalize_document_inplace`
  (`src/microservices/statstidende/main.py`, `src/statstidende/statstidende.py`).
* `Xbrl` — the two XBRL asset extractors
  (`src/microservices/cvr/parse_xbrl.py` and `Fetch.parse_xbrl_assets` in
  `src/microservices/cvr/fetch.py` / `src/cvr/fetch.py`).
* `Aggregator` — the per-case enrichment-and-upsert orchestrator
  (`src/microservices/aggregator/main.py` with the table shapes of
  `src/microservices/aggregator/models.py`).

Modelling conventions: Python strings are `List Char`; HTTP traffic is an
oracle function from request parameters to the decoded response; raising an
exception is an `Except` error value; SQLAlchemy sessions are explicit pure
record states.  Machine floats are modelled as exact rationals: the claims
under check concern comparisons and maxima of parsed decimal literals, for
which rational semantics agrees with the code.
-/

/-- Python strings, embedded as their character lists. -/
abbrev Str := List Char

/-- Decidable equality of `Except` values, used to evaluate embedded
functions on concrete inputs. -/
instance {ε α : Type} [DecidableEq ε] [DecidableEq α] : DecidableEq (Except ε α) := fun a b =>
  match a, b with
  | Except.ok x, Except.ok y =>
    if h : x = y then isTrue (by rw [h]) else isFalse (by simp [h])
  | Except.error x, Except.error y =>
    if h : x = y then isTrue (by rw [h]) else isFalse (by simp [h])
  | Except.ok _, Except.error _ => isFalse (by simp)
  | Except.error _, Except.ok _ => isFalse (by simp)

namespace Statstidende

/-- One decoded response of the gazette `/api/messagesearch` endpoint: the
HTTP status, the reported `pageCount` (absent key defaulted by the caller),
and the `results` rows, abstracted to opaque row identifiers. -/
structure SearchResp where
  status : Nat
  pageCount : Nat
  results : List Nat
deriving DecidableEq

/-- One parameter strategy of the fallback ladder: `(ps, o, include_m)`,
page size, order parameter, and whether the fixed `m=` filter list is sent. -/
abbrev Strategy := Nat × Nat × Bool

/-- The fixed ordered attempt list of `messagesearch_day`. -/
def attempts : List Strategy :=
  [(10, 40, true), (10, 40, false), (20, 40, false), (10, 0, false), (50, 0, false)]

/-- Outcome of `try_one`: `abandoned` models `return None` (a 500 was seen),
`httpError` models the `requests.HTTPError` of `raise_for_status`, and `ok`
models the returned dict `(pageCount, resultCount, results)`. -/
inductive TryResult where
  | abandoned : TryResult
  | httpError (status : Nat) : TryResult
  | ok (pageCount resultCount : Nat) (results : List Nat) : TryResult
deriving DecidableEq

/-- The page loop `for page in range(1, page_count)` of `try_one`.  `o` is the
network oracle, `pc` the page count read off page 0, `rem` the number of loop
iterations still to run, `page` the next page index, `acc` the rows drained
so far.  A 500 on any page abandons the strategy; any other non-success
status raises; otherwise the page rows are appended and the loop continues. -/
def drainPages (o : Strategy → Nat → SearchResp) (a : Strategy) (pc : Nat) :
    Nat → Nat → List Nat → TryResult
  | 0, _, acc => TryResult.ok pc acc.length acc
  | rem + 1, page, acc =>
    let r := o a page
    if r.status == 500 then TryResult.abandoned
    else if 400 ≤ r.status then TryResult.httpError r.status
    else drainPages o a pc rem (page + 1) (acc ++ r.results)

/-- Embedding of `try_one(ps, o, include_m)`: fetch page 0, handle its status,
read `pageCount`, then drain pages `1 .. pageCount - 1` with the same
strategy. -/
def try_one (o : Strategy → Nat → SearchResp) (a : Strategy) : TryResult :=
  let r := o a 0
  if r.status == 500 then TryResult.abandoned
  else if 400 ≤ r.status then TryResult.httpError r.status
  else drainPages o a r.pageCount (r.pageCount - 1) 1 r.results

/-- Observable outcome of `messagesearch_day`: a returned result dict, a
re-raised `requests.HTTPError` (`raise last_err`), or the final
`RuntimeError`. -/
inductive DayResult where
  | ok (pageCount resultCount : Nat) (results : List Nat) : DayResult
  | raisedHttp (status : Nat) : DayResult
  | raisedRuntime : DayResult
deriving DecidableEq

/-- The strategy loop of `messagesearch_day`, carrying `last_err`.  A
successful `try_one` returns immediately; `None` (abandoned) moves to the
next strategy; a caught `HTTPError` is remembered in `last_err` and the next
strategy is tried. -/
def searchLoop (o : Strategy → Nat → SearchResp) :
    List Strategy → Option Nat → DayResult
  | [], none => DayResult.raisedRuntime
  | [], some s => DayResult.raisedHttp s
  | a :: rest, last =>
    match try_one o a with
    | TryResult.ok pc n rs => DayResult.ok pc n rs
    | TryResult.abandoned => searchLoop o rest last
    | TryResult.httpError s => searchLoop o rest (some s)

/-- Embedding of `messagesearch_day` for one date; the date is folded into
the oracle. -/
def messagesearch_day (o : Strategy → Nat → SearchResp) : DayResult :=
  searchLoop o attempts none

/-- Does a `try_one` outcome count as a success (a returned dict)? -/
def tryOk : TryResult → Bool
  | TryResult.ok _ _ _ => true
  | _ => false

/-- Does a day outcome count as a failure surfaced to the caller? -/
def isDayFailure : DayResult → Bool
  | DayResult.ok _ _ _ => false
  | _ => true

/-- Concatenation of the result rows of pages `start .. start + len - 1`. -/
def pagesFrom (o : Strategy → Nat → SearchResp) (a : Strategy)
    (start len : Nat) : List Nat :=
  (List.range' start len).flatMap (fun p => (o a p).results)

/-- Concatenation of the result rows of pages `0 .. pc - 1`. -/
def pagesConcat (o : Strategy → Nat → SearchResp) (a : Strategy)
    (pc : Nat) : List Nat :=
  (List.range pc).flatMap (fun p => (o a p).results)

/-- Oracle where the first strategy receives a 404 (a non-success status that
is not the 500 fault status) and every other strategy succeeds with one page
containing one row. -/
def faultyFirstOracle : Strategy → Nat → SearchResp :=
  fun a _ =>
    if a == ((10, 40, true) : Strategy) then SearchResp.mk 404 1 []
    else SearchResp.mk 200 1 [7]

/-- Oracle where every request fails with status 404. -/
def allFailOracle : Strategy → Nat → SearchResp :=
  fun _ _ => SearchResp.mk 404 1 []

/-- Oracle whose page 0 reports `pageCount = 0` yet carries one result row. -/
def zeroPageOracle : Strategy → Nat → SearchResp :=
  fun _ _ => SearchResp.mk 200 0 [5]

/-- Oracle where every request succeeds with a single one-row page. -/
def goodOracle : Strategy → Nat → SearchResp :=
  fun _ _ => SearchResp.mk 200 1 [3]

/-- The parsed gazette notice document: presence and value of the two
required field-group keys, plus an opaque token for the rest of the object.
An absent key is `none`; a present key carries an opaque JSON value. -/
structure GazetteDoc where
  fieldgroups : Option Nat
  defaultfieldgroups : Option Nat
  rest : Nat
deriving DecidableEq

/-- A value produced by `json.loads`, classified by how the two membership
checks and the `.get` calls of the normalizer treat it: a JSON object (keyed
by the two required keys), a JSON string (where `in` is a substring check
and `.get` raises `AttributeError`), a JSON array (where `in` is an element
check and `.get` raises `AttributeError`), or a non-container scalar
(number, boolean, null), on which `in` raises `TypeError`.  For strings and
arrays only the containment of the two key strings is observable, carried as
two booleans. -/
inductive ParsedJson where
  | obj (d : GazetteDoc) : ParsedJson
  | strVal (hasFieldgroups hasDefaultfieldgroups : Bool) : ParsedJson
  | arrVal (hasFieldgroups hasDefaultfieldgroups : Bool) : ParsedJson
  | scalar : ParsedJson
deriving DecidableEq

/-- The `document` entry of a fetched message: a JSON string (carrying its
`json.loads` outcome, `none` when decoding fails), an embedded dict, or
anything else (missing key or a value of another type). -/
inductive DocumentVal where
  | str (parse : Option ParsedJson) : DocumentVal
  | obj (d : GazetteDoc) : DocumentVal
  | invalid : DocumentVal
deriving DecidableEq

/-- The mutable message dict, restricted to the keys the normalizer reads or
writes. -/
structure Message where
  document : DocumentVal
  fieldGroups : Option Nat
  defaultFieldGroups : Option Nat
  documentObj : Option GazetteDoc
deriving DecidableEq

/-- A raised Python exception of the normalizer: `ValueError` (including
`json.JSONDecodeError`) is the spec's `MalformedDocument`; `TypeError` is
raised by the `in` check on a non-container; `AttributeError` is raised by
`.get` on a parsed string or array. -/
inductive PyError where
  | valueError : PyError
  | typeError : PyError
  | attributeError : PyError
deriving DecidableEq

/-- The shared tail of `normalize_document_inplace` after `document` has
been parsed: the membership check for the two required keys (a key check on
dicts, a substring check on strings, an element check on arrays, a
`TypeError` on scalars), then the re-serialization of the parsed object into
`document` and the `.get` calls attaching both field-group collections
(which raise `AttributeError` on a non-dict). -/
def checkAndAttach (_m : Message) (parsed : ParsedJson) : Except PyError Message :=
  match parsed with
  | ParsedJson.obj d =>
    if d.fieldgroups.isNone || d.defaultfieldgroups.isNone then
      Except.error PyError.valueError
    else
      Except.ok (Message.mk (DocumentVal.str (some (ParsedJson.obj d))) d.fieldgroups
        d.defaultfieldgroups (some d))
  | ParsedJson.strVal hasFG hasDFG =>
    if !hasFG || !hasDFG then Except.error PyError.valueError
    else Except.error PyError.attributeError
  | ParsedJson.arrVal hasFG hasDFG =>
    if !hasFG || !hasDFG then Except.error PyError.valueError
    else Except.error PyError.attributeError
  | ParsedJson.scalar => Except.error PyError.typeError

/-- Embedding of `normalize_document_inplace`: a string document is parsed
with `json.loads` (a decode failure raises `ValueError`), a dict document is
taken as is, anything else raises `ValueError`; then the required keys are
checked and the document attached. -/
def normalize_document_inplace (m : Message) : Except PyError Message :=
  match m.document with
  | DocumentVal.str none => Except.error PyError.valueError
  | DocumentVal.str (some parsed) => checkAndAttach m parsed
  | DocumentVal.obj parsed => checkAndAttach m (ParsedJson.obj parsed)
  | DocumentVal.invalid => Except.error PyError.valueError

/-- The parse outcome of a `document` entry: the parsed JSON value when the
entry is a parseable JSON string or an embedded dict, `none` otherwise. -/
def parsedOf : DocumentVal → Option ParsedJson
  | DocumentVal.str p => p
  | DocumentVal.obj d => some (ParsedJson.obj d)
  | DocumentVal.invalid => none

/-- A message whose document is the JSON string of a bare number, such as
the literal string containing only the character 5: `json.loads` yields a
scalar, on which the membership check raises `TypeError`. -/
def scalarDocMessage : Message :=
  Message.mk (DocumentVal.str (some ParsedJson.scalar)) none none none

end Statstidende

namespace Xbrl

/-- An XML element: its tag (as serialized by ElementTree, so a namespaced
element reads like a namespace-decorated name ending in the local name), its
text content, and its child elements. -/
inductive XmlEl where
  | node (tag : Str) (text : Option Str) (children : List XmlEl) : XmlEl

/-- Tag of an element. -/
def tagOf : XmlEl → Str
  | XmlEl.node t _ _ => t

/-- Text content of an element. -/
def textOf : XmlEl → Option Str
  | XmlEl.node _ x _ => x

mutual

/-- Embedding of `root.iter()`: the element followed by all of its
descendants in document order. -/
def iterEls : XmlEl → List XmlEl
  | XmlEl.node t x cs => XmlEl.node t x cs :: iterList cs

/-- Document-order traversal of a forest of elements. -/
def iterList : List XmlEl → List XmlEl
  | [] => []
  | c :: cs => iterEls c ++ iterList cs

end

/-- Python `str.strip()`: drop whitespace from both ends. -/
def pyStrip (cs : Str) : Str :=
  ((cs.dropWhile Char.isWhitespace).reverse.dropWhile Char.isWhitespace).reverse

/-- Numeric value of a list of ASCII digits. -/
def digitsToNat (ds : Str) : Nat :=
  ds.foldl (fun a c => 10 * a + (c.toNat - 48)) 0

/-- Fraction digits of an unsigned decimal literal: everything after the
first period. -/
def fracPart (cs : Str) : Str :=
  (cs.dropWhile (fun c => c != ('.' : Char))).drop 1

/-- Value of an unsigned decimal literal accepted by Python `float()`:
digits with at most one period and at least one digit.  Models the plain
decimal fragment of `float()`; scientific notation, infinities, NaN,
underscore separators and non-ASCII digits are outside the model (none of
the verified properties depends on them). -/
def pyFloatCore (cs : Str) : Option ℚ :=
  if cs.all (fun c => c.isDigit || c == ('.' : Char)) &&
      decide (cs.count ('.' : Char) ≤ 1) && cs.any (fun c => c.isDigit) then
    some (if (fracPart cs).isEmpty then (digitsToNat (cs.takeWhile (fun c => c != ('.' : Char))) : ℚ)
      else (digitsToNat (cs.takeWhile (fun c => c != ('.' : Char))) : ℚ) +
        (digitsToNat (fracPart cs) : ℚ) / (10 : ℚ) ^ (fracPart cs).length)
  else none

/-- Python `float()` on a character list: an optional sign followed by an
unsigned decimal literal. -/
def pyFloat? : Str → Option ℚ
  | ('-' : Char) :: rest => (pyFloatCore rest).map (fun v => -v)
  | ('+' : Char) :: rest => pyFloatCore rest
  | cs => pyFloatCore cs

/-- Python `.replace(",", ".")`. -/
def commaToDot (cs : Str) : Str :=
  cs.map (fun c => if c == (',' : Char) then ('.' : Char) else c)

/-- The character class kept by `re.sub(r"[^\d,.\-]", "", value)`. -/
def keepNumChar (c : Char) : Bool :=
  c.isDigit || c == (',' : Char) || c == ('.' : Char) || c == ('-' : Char)

/-- The `ASSET_TAGS` table of `parse_xbrl.py`, in its insertion order. -/
def ASSET_TAGS : List (Str × Str) :=
  [ ("e:FixturesAndFittingsToolsAndEquipment".toList,
      "Fixtures, fittings, tools and equipment".toList),
    ("e:OtherTangibleFixedAssets".toList, "Other tangible fixed assets".toList),
    ("e:Inventories".toList, "Inventories".toList),
    ("fsa:RawMaterialsAndConsumables".toList,
      "Inventories (Raw materials and consumables)".toList),
    ("fsa:FinishedGoodsAndGoodsForResale".toList,
      "Inventories (Finished goods and resale)".toList),
    ("e:LandAndBuildings".toList, "Land and buildings".toList),
    ("e:Vehicles".toList, "Vehicles".toList),
    ("e:TangibleFixedAssets".toList, "Tangible fixed assets, total".toList) ]

/-- Embedding of `tag.split(":")[1]` for the prefixed keys of `ASSET_TAGS`
(every key contains exactly one colon). -/
def localTag (tag : Str) : Str :=
  ((tag.dropWhile (fun c => c != (':' : Char))).drop 1).takeWhile
    (fun c => c != (':' : Char))

/-- The number parse of one element in `parse_xbrl.py`:
`float(el.text.strip().replace(",", "."))`, where a missing text
(`AttributeError`) or an unparseable text (`ValueError`) is skipped. -/
def moduleParseNum (text : Option Str) : Option ℚ :=
  match text with
  | none => none
  | some s => pyFloat? (commaToDot (pyStrip s))

/-- The `values` list collected by `parse_xbrl.py` for one watched local
name: every element whose tag ends with the local name and whose text parses
as a number contributes its value, in document order. -/
def moduleCollect (root : XmlEl) (lt : Str) : List ℚ :=
  (iterEls root).filterMap (fun el =>
    if lt.isSuffixOf (tagOf el) then moduleParseNum (textOf el) else none)

/-- Python `max` on a nonempty list, as `max(v :: vs)`. -/
def listMax (v : ℚ) (vs : List ℚ) : ℚ := vs.foldl max v

/-- A raised `xml.etree.ElementTree.ParseError` (the spec's
`MalformedDocument` for the asset extractor). -/
inductive EtError where
  | parseError : EtError
deriving DecidableEq

/-- The result rows built by `parse_xbrl.py` for a parsed tree: one
`(tag, name, max(values))` row per watched tag with a nonempty value list,
in `ASSET_TAGS` order. -/
def moduleAssets (root : XmlEl) : List (Str × Str × ℚ) :=
  ASSET_TAGS.filterMap (fun kv =>
    match moduleCollect root (localTag kv.1) with
    | [] => none
    | v :: vs => some (kv.1, kv.2, listMax v vs))

/-- Embedding of the module-level `parse_xbrl_assets(xml_content)` of
`parse_xbrl.py`: `ET.parse` raises on byte content that is not well-formed
XML; otherwise the watched tags are collected. -/
def parse_xbrl_assets (xml : Option XmlEl) : Except EtError (List (Str × Str × ℚ)) :=
  match xml with
  | none => Except.error EtError.parseError
  | some root => Except.ok (moduleAssets root)

/-- The `FIELD_MAP` table of `Fetch.parse_xbrl_assets`, in insertion order. -/
def FIELD_MAP : List (Str × Str) :=
  [ ("PropertyPlantAndEquipment".toList, "Tangible assets (IFRS)".toList),
    ("TangibleFixedAssets".toList, "Tangible assets (Danish GAAP)".toList),
    ("LandAndBuildings".toList, "Land and buildings".toList),
    ("Buildings".toList, "Buildings".toList),
    ("Vehicles".toList, "Vehicles".toList),
    ("FixturesAndFittingsToolsAndEquipment".toList, "Fixtures, fittings & tools".toList),
    ("OtherTangibleFixedAssets".toList, "Other tangible fixed assets".toList),
    ("IntangibleAssets".toList, "Intangible assets".toList),
    ("Goodwill".toList, "Goodwill".toList),
    ("DevelopmentCosts".toList, "Development costs".toList),
    ("Inventories".toList, "Inventories".toList),
    ("RawMaterialsAndConsumables".toList, "Raw materials & consumables".toList),
    ("FinishedGoodsAndGoodsForResale".toList, "Finished goods & resale goods".toList),
    ("Equity".toList, "Equity".toList),
    ("Provisions".toList, "Provisions".toList),
    ("LongTermDebt".toList, "Long-term debt".toList),
    ("ShortTermDebt".toList, "Short-term debt".toList),
    ("CurrentLiabilities".toList, "Current liabilities".toList),
    ("TotalLiabilitiesAndEquity".toList, "Liabilities + Equity (total)".toList) ]

/-- Embedding of the inner `to_float` of `Fetch.parse_xbrl_assets`: an empty
string is rejected, every character outside digits, comma, period and minus
is stripped, commas become periods, and the result is parsed by `float()`. -/
def to_float (value : Str) : Option ℚ :=
  if value.isEmpty then none
  else pyFloat? (commaToDot (value.filter keepNumChar))

/-- The contribution of one matched element text in
`Fetch.parse_xbrl_assets`: the parsed number, unless the parse fails or the
value is zero. -/
def fetchContribution (s : Str) : Option ℚ :=
  match to_float s with
  | none => none
  | some v => if v = 0 then none else some v

/-- Embedding of `el.text.strip() if el.text else ""`. -/
def textOrEmpty (t : Option Str) : Str :=
  match t with
  | none => []
  | some s => pyStrip s

/-- The `numbers` list collected by `Fetch.parse_xbrl_assets` for one
watched key. -/
def fetchCollect (root : XmlEl) (key : Str) : List ℚ :=
  (iterEls root).filterMap (fun el =>
    if key.isSuffixOf (tagOf el) then fetchContribution (textOrEmpty (textOf el))
    else none)

/-- The fixed display-order list used to sort the emitted rows. -/
def displayOrder : List Str :=
  [ "Tangible assets (Danish GAAP)".toList, "Tangible assets (IFRS)".toList,
    "Land and buildings".toList, "Buildings".toList, "Vehicles".toList,
    "Fixtures, fittings & tools".toList, "Other tangible fixed assets".toList,
    "Intangible assets".toList, "Goodwill".toList, "Development costs".toList,
    "Inventories".toList, "Raw materials & consumables".toList,
    "Finished goods & resale goods".toList,
    "Equity".toList, "Provisions".toList, "Long-term debt".toList,
    "Short-term debt".toList, "Current liabilities".toList,
    "Liabilities + Equity (total)".toList ]

/-- Sort key `order.index(label) if label in order else len(order)`
(`List.indexOf` returns the length when the label is absent). -/
def orderKey (label : Str) : Nat := displayOrder.indexOf label

/-- Stable insertion of a row into a list already sorted by `orderKey` of
the label: the new row goes after every row with a key not above its own,
matching the stability of Python `list.sort`. -/
def insertByKey (x : Str × Str × ℚ) : List (Str × Str × ℚ) → List (Str × Str × ℚ)
  | [] => [x]
  | y :: ys =>
    if orderKey y.2.1 ≤ orderKey x.2.1 then y :: insertByKey x ys
    else x :: y :: ys

/-- Stable sort by `orderKey` of the label. -/
def sortByOrder (l : List (Str × Str × ℚ)) : List (Str × Str × ℚ) :=
  l.foldl (fun acc x => insertByKey x acc) []

/-- Input of `Fetch.parse_xbrl_assets`: either the error-shaped fallback
dict produced by `download_xbrl` when no URL yielded XML, or byte content
together with its `ET.parse` outcome (`none` when the bytes are not
well-formed XML). -/
inductive XbrlInput where
  | dict : XbrlInput
  | bytes (parse : Option XmlEl) : XbrlInput

/-- Embedding of `Fetch.parse_xbrl_assets(xml_content)` of `fetch.py`: a
dict input returns the empty list at once; a parse failure is caught and
returns the empty list; otherwise the watched keys are collected, rows are
built with `max(numbers)`, and the rows are sorted by display order.  The
`Except` wrapper records raising behaviour: no branch of the source body can
raise, so every branch is `ok`. -/
def Fetch_parse_xbrl_assets (inp : XbrlInput) : Except EtError (List (Str × Str × ℚ)) :=
  match inp with
  | XbrlInput.dict => Except.ok []
  | XbrlInput.bytes none => Except.ok []
  | XbrlInput.bytes (some root) =>
    Except.ok (sortByOrder (FIELD_MAP.filterMap (fun kv =>
      match fetchCollect root kv.1 with
      | [] => none
      | v :: vs => some (kv.1, kv.2, listMax v vs))))

/-- Spec-side number parser for the refinement comparison of the parsing
rule, written from the words of the specification: strip all characters
except digits, comma, period and minus, treat comma as the decimal
separator, and parse the result as a number. -/
def spec_parse_number (s : Str) : Option ℚ :=
  pyFloat? (s.filterMap (fun c =>
    if c == (',' : Char) then some ('.' : Char)
    else if c.isDigit || c == ('.' : Char) || c == ('-' : Char) then some c
    else none))

/-- Spec-side contribution of one element text: skip on parse failure or
zero value, following the words of the specification. -/
def spec_contribution (s : Str) : Option ℚ :=
  match spec_parse_number s with
  | none => none
  | some v => if v = 0 then none else some v

/-- Tree with two elements matching the watched local name `Vehicles`, with
values -300 and 100. -/
def signedRoot : XmlEl :=
  XmlEl.node ("xbrl".toList) none
    [ XmlEl.node ("a:Vehicles".toList) (some ("-300".toList)) [],
      XmlEl.node ("b:Vehicles".toList) (some ("100".toList)) [] ]

/-- Tree with two elements matching the watched local name `Vehicles`, with
values 100 and 250. -/
def maxRoot : XmlEl :=
  XmlEl.node ("xbrl".toList) none
    [ XmlEl.node ("a:Vehicles".toList) (some ("100".toList)) [],
      XmlEl.node ("b:Vehicles".toList) (some ("250".toList)) [] ]

/-- Tree whose single element matches no watched tag. -/
def noTagRoot : XmlEl := XmlEl.node ("foo".toList) none []

end Xbrl

namespace Aggregator

/-- Python truthiness of an optional string (`if value:`): false for a
missing value and for the empty string. -/
def truthy : Option Str → Bool
  | none => false
  | some s => !s.isEmpty

/-- The case dict handed to the aggregator by the Statstidende service,
restricted to the keys the orchestrator reads. -/
structure CaseDict where
  messageNumber : Option Str
  publicationDate : Option Str
  company_name : Option Str
  cvr : Option Str
  court : Option Str
  lawyer_name : Option Str
deriving DecidableEq

/-- A row of the `lawyers` table. -/
structure LawyerRow where
  id : Nat
  name : Str
  firm : Option Str
  city : Option Str
  email : Option Str
  cvr : Option Str
  phone : Option Str
deriving DecidableEq

/-- A row of the `companies` table, restricted to the columns the verified
properties read: the `cvr` primary key, the name, and the lawyer foreign
key; the remaining enrichment snapshot columns are not read by any claim. -/
structure CompanyRow where
  cvr : Str
  name : Option Str
  lawyer_id : Option Nat
deriving DecidableEq

/-- A row of the `insolvency_cases` table. -/
structure CaseRow where
  id : Nat
  message_number : Option Str
  publication_date : Option Str
  company_name : Option Str
  cvr : Option Str
  court : Option Str
  lawyer_id : Option Nat
  raw : CaseDict
deriving DecidableEq

/-- The session state: the three tables, plus fresh-value counters for the
two autoincrement integer primary keys. -/
structure Db where
  cases : List CaseRow
  lawyers : List LawyerRow
  companies : List CompanyRow
  nextCaseId : Nat
  nextLawyerId : Nat
deriving DecidableEq

/-- Replace the first list entry satisfying `p` (the row found by the
session query and mutated in place by the `setattr` loop). -/
def updateFirst {α : Type} (p : α → Bool) (f : α → α) : List α → List α
  | [] => []
  | x :: xs => if p x then f x :: xs else x :: updateFirst p f xs

/-- The `firm` sub-object of a lawyer profile. -/
structure FirmObj where
  name : Option Str
  city : Option Str
  cvr : Option Str
  phone : Option Str
deriving DecidableEq

/-- A lawyer profile as returned by the lawyer directory. -/
structure Profile where
  name : Option Str
  email : Option Str
  firm : Option FirmObj
deriving DecidableEq

/-- The empty dict default of `profile.get("firm", {})`. -/
def emptyFirm : FirmObj := FirmObj.mk none none none none

/-- The dict built by `_build_lawyer_fields`. -/
structure LawyerFields where
  name : Option Str
  firm : Option Str
  city : Option Str
  email : Option Str
  cvr : Option Str
  phone : Option Str
deriving DecidableEq

/-- Embedding of `_build_lawyer_fields(profile)`: the lawyer name and email
from the profile, the firm name, city, registry id and phone from the firm
sub-object. -/
def _build_lawyer_fields (p : Profile) : LawyerFields :=
  LawyerFields.mk p.name (p.firm.getD emptyFirm).name (p.firm.getD emptyFirm).city
    p.email (p.firm.getD emptyFirm).cvr (p.firm.getD emptyFirm).phone

/-- The first search result returned by `_fetch_lawyer_data`, whose
`profile` sub-object may be absent. -/
structure LawyerPayload where
  profile : Option Profile
deriving DecidableEq

/-- The CVR payload fields feeding the modelled company columns: the `cvr`
number and `stamdata.navn`. -/
structure CvrPayload where
  cvr : Option Str
  navn : Option Str
deriving DecidableEq

/-- The company dict built by `_build_company_fields`, restricted to the
modelled columns; `lawyer_id` is only attached later by the orchestrator. -/
structure CompanyFields where
  cvr : Option Str
  name : Option Str
  lawyer_id : Option Nat
deriving DecidableEq

/-- Embedding of `_build_company_fields(company_name, cvr_payload)` on the
modelled columns: `cvr` from the payload, and
`stamdata.get("navn") or company_name` for the name. -/
def _build_company_fields (company_name : Option Str) (p : CvrPayload) : CompanyFields :=
  CompanyFields.mk p.cvr
    (match p.navn with
     | some s => if s.isEmpty then company_name else some s
     | none => company_name)
    none

/-- Embedding of `upsert_company(session, case, cvr_data)`: without a truthy
`cvr` no company is written; otherwise the row is looked up by primary key
and each key present in the dict is overwritten in place, or a new row
inserted.  The `cvr` and `name` keys are always present in the dict built by
`_build_company_fields`, so the `clean_data.setdefault("name", ...)` call is
a no-op and the case argument is unused on the modelled columns; the
`lawyer_id` key is present only when the orchestrator attached it, so on the
update path an absent `lawyer_id` leaves the stored value untouched (the
`setattr` loop runs only over present keys). -/
def upsert_company (db : Db) (_case : CaseDict) (fields : CompanyFields) :
    Db × Option CompanyRow :=
  match fields.cvr with
  | none => (db, none)
  | some c =>
    if c.isEmpty then (db, none)
    else
      match db.companies.find? (fun r => r.cvr == c) with
      | some ex =>
        let overwrite := fun (r : CompanyRow) => CompanyRow.mk c fields.name
          (match fields.lawyer_id with
           | some i => some i
           | none => r.lawyer_id)
        (Db.mk db.cases db.lawyers
          (updateFirst (fun r => r.cvr == c) overwrite db.companies)
          db.nextCaseId db.nextLawyerId, some (overwrite ex))
      | none =>
        let row := CompanyRow.mk c fields.name fields.lawyer_id
        (Db.mk db.cases db.lawyers (db.companies ++ [row])
          db.nextCaseId db.nextLawyerId, some row)

/-- The `(name, firm)` lookup of `upsert_lawyer`. -/
def lawyerLookup (db : Db) (n : Str) (firm : Option Str) : Option LawyerRow :=
  db.lawyers.find? (fun r => r.name == n && r.firm == firm)

/-- Embedding of `upsert_lawyer(session, lawyer_data)`: without a truthy
name no lawyer is written; otherwise the row is looked up by `(name, firm)`
and every field of the dict overwritten in place, or a new row inserted with
a fresh id. -/
def upsert_lawyer (db : Db) (ld : LawyerFields) : Db × Option LawyerRow :=
  match ld.name with
  | none => (db, none)
  | some n =>
    if n.isEmpty then (db, none)
    else
      match lawyerLookup db n ld.firm with
      | some ex =>
        let row := LawyerRow.mk ex.id n ld.firm ld.city ld.email ld.cvr ld.phone
        (Db.mk db.cases
          (updateFirst (fun r => r.name == n && r.firm == ld.firm)
            (fun _ => row) db.lawyers)
          db.companies db.nextCaseId db.nextLawyerId, some row)
      | none =>
        let row := LawyerRow.mk db.nextLawyerId n ld.firm ld.city ld.email ld.cvr ld.phone
        (Db.mk db.cases (db.lawyers ++ [row]) db.companies
          db.nextCaseId (db.nextLawyerId + 1), some row)

/-- The `case_payload` dict of `upsert_insolvency_case`. -/
structure CasePayload where
  message_number : Option Str
  publication_date : Option Str
  company_name : Option Str
  cvr : Option Str
  court : Option Str
  lawyer_id : Option Nat
  raw : CaseDict
deriving DecidableEq

/-- Build the `case_payload` dict: the case's own fields, the company's
`cvr` when a company was upserted (else the case's `cvr`), and the upserted
lawyer's id. -/
def mkCasePayload (case : CaseDict) (company : Option CompanyRow)
    (lawyer : Option LawyerRow) : CasePayload :=
  CasePayload.mk case.messageNumber case.publicationDate case.company_name
    (match company with
     | some co => some co.cvr
     | none => case.cvr)
    case.court
    (match lawyer with
     | some l => some l.id
     | none => none)
    case

/-- Overwrite every payload field of a row in place (`setattr` loop). -/
def applyCasePayload (r : CaseRow) (p : CasePayload) : CaseRow :=
  CaseRow.mk r.id p.message_number p.publication_date p.company_name p.cvr
    p.court p.lawyer_id p.raw

/-- The guarded lookup of `upsert_insolvency_case`: performed only when the
payload's `message_number` is truthy. -/
def caseLookup (db : Db) (p : CasePayload) : Option CaseRow :=
  if truthy p.message_number then
    db.cases.find? (fun r => r.message_number == p.message_number)
  else none

/-- Embedding of `upsert_insolvency_case(session, case, company, lawyer)`:
build the payload; with a truthy message number, look the existing row up
and overwrite all payload fields in place, otherwise insert a new row with a
fresh id.  Returns the session state and the upserted row. -/
def upsert_insolvency_case (db : Db) (case : CaseDict)
    (company : Option CompanyRow) (lawyer : Option LawyerRow) : Db × CaseRow :=
  let p := mkCasePayload case company lawyer
  match caseLookup db p with
  | some ex =>
    (Db.mk (updateFirst (fun r => r.message_number == p.message_number)
        (fun r => applyCasePayload r p) db.cases)
      db.lawyers db.companies db.nextCaseId db.nextLawyerId,
     applyCasePayload ex p)
  | none =>
    let row := CaseRow.mk db.nextCaseId p.message_number p.publication_date
      p.company_name p.cvr p.court p.lawyer_id p.raw
    (Db.mk (db.cases ++ [row]) db.lawyers db.companies
      (db.nextCaseId + 1) db.nextLawyerId, row)

/-- A raised `sqlalchemy.exc.IntegrityError`. -/
inductive DbError where
  | integrityError : DbError
deriving DecidableEq

/-- The unique constraint on `InsolvencyCase.message_number` (the schema's
`unique=True`), as enforced by the database when the session flushes: every
non-NULL message number occurs on at most one row.  NULL values are exempt,
as SQL unique constraints treat NULLs as distinct. -/
def msgNumberUnique (rows : List CaseRow) : Bool :=
  rows.all (fun r =>
    match r.message_number with
    | none => true
    | some s => decide (rows.countP (fun x => x.message_number == some s) ≤ 1))

/-- `upsert_insolvency_case` together with its `session.flush()`: the
in-memory upsert, then the flush, which raises `IntegrityError` when the
written rows violate the unique constraint on `message_number`. -/
def upsert_insolvency_case_flushed (db : Db) (case : CaseDict)
    (company : Option CompanyRow) (lawyer : Option LawyerRow) :
    Except DbError (Db × CaseRow) :=
  let r := upsert_insolvency_case db case company lawyer
  if msgNumberUnique r.1.cases then Except.ok r
  else Except.error DbError.integrityError

/-- Outcome of one upstream HTTP helper: a returned payload (`ok none`
models the 404 path returning `None`), or a raised
`requests.RequestException`. -/
inductive NetResult (α : Type) where
  | ok (v : Option α) : NetResult α
  | raised : NetResult α
deriving DecidableEq

/-- The guarded CVR enrichment block of `process_insolvency_case`: skipped
without a truthy company name; a raised `RequestException` is caught and
leaves the fields empty. -/
def enrichCompany (case : CaseDict) (cvrResp : NetResult CvrPayload) :
    Option CompanyFields :=
  if truthy case.company_name then
    match cvrResp with
    | NetResult.raised => none
    | NetResult.ok none => none
    | NetResult.ok (some p) => some (_build_company_fields case.company_name p)
  else none

/-- The guarded lawyer enrichment block of `process_insolvency_case`:
skipped without a truthy lawyer name; a raised `RequestException` is caught
and leaves the session untouched; otherwise the first profile is mapped and
the lawyer upserted (`payload.get("profile", {})` defaults to the empty
profile). -/
def enrichLawyer (db : Db) (case : CaseDict) (lawResp : NetResult LawyerPayload) :
    Db × Option LawyerRow :=
  if truthy case.lawyer_name then
    match lawResp with
    | NetResult.raised => (db, none)
    | NetResult.ok none => (db, none)
    | NetResult.ok (some payload) =>
      upsert_lawyer db (_build_lawyer_fields
        (payload.profile.getD (Profile.mk none none none)))
  else (db, none)

/-- `company_fields["lawyer_id"] = lawyer.id if lawyer` of the
orchestrator. -/
def attachLawyerId (cf : CompanyFields) (lawyer : Option LawyerRow) : CompanyFields :=
  match lawyer with
  | some l => CompanyFields.mk cf.cvr cf.name (some l.id)
  | none => cf

/-- Embedding of `process_insolvency_case(session, case, index, total)` with
the two upstream calls given as oracles: CVR enrichment, lawyer enrichment,
company upsert, then the unconditional case upsert.  Returns the session
state and the upserted case row. -/
def process_insolvency_case (db : Db) (case : CaseDict)
    (cvrResp : NetResult CvrPayload) (lawResp : NetResult LawyerPayload) :
    Db × CaseRow :=
  let company_fields := enrichCompany case cvrResp
  let ls := enrichLawyer db case lawResp
  let cs := match company_fields with
    | some cf => upsert_company ls.1 case (attachLawyerId cf ls.2)
    | none => (ls.1, none)
  upsert_insolvency_case cs.1 case cs.2 ls.2

/-- One run-loop step: processing one case followed by `session.commit()`;
an error value models any exception raised by the step (for instance an
`IntegrityError` from a storage uniqueness violation). -/
abbrev CaseStep := CaseDict → Db → Except Unit Db

/-- The per-case loop of `run_daily_sync`: each case is processed and
committed inside `try`; any exception rolls the session back to the state
committed so far and the loop continues with the next case. -/
def run_case_loop (step : CaseStep) : List CaseDict → Db → Db
  | [], db => db
  | c :: rest, db =>
    match step c db with
    | Except.ok db2 => run_case_loop step rest db2
    | Except.error _ => run_case_loop step rest db

/-- Embedding of `run_daily_sync`: a failed day fetch is caught and the run
returns at once with no case processed; otherwise every fetched case runs
through the guarded per-case loop.  The run itself never raises. -/
def run_daily_sync (step : CaseStep) (fetched : Except Unit (List CaseDict))
    (db : Db) : Db :=
  match fetched with
  | Except.error _ => db
  | Except.ok cases => run_case_loop step cases db

/-- The empty session state. -/
def emptyDb : Db := Db.mk [] [] [] 0 0

/-- A case dict carrying only a message number. -/
def mnCase : CaseDict :=
  CaseDict.mk (some ("M1".toList)) none none none none none

/-- A case dict with an empty message number. -/
def blankCase : CaseDict :=
  CaseDict.mk (some []) none none none none none

/-- A case dict with no message number at all. -/
def noneCase : CaseDict :=
  CaseDict.mk none none none none none none

/-- A case dict naming a lawyer but no company and no registry id. -/
def lawyerOnlyCase : CaseDict :=
  CaseDict.mk (some ("M2".toList)) none none none none (some ("Jane Doe".toList))

/-- A lawyer-directory payload whose profile names the lawyer. -/
def janePayload : LawyerPayload :=
  LawyerPayload.mk (some (Profile.mk (some ("Jane Doe".toList)) none none))

/-- A step that fails on the marker case and commits unchanged state on
every other case. -/
def markedStep : CaseStep := fun c db =>
  if c.messageNumber == some ("BAD".toList) then Except.error () else Except.ok db

/-- The marker case rejected by `markedStep`. -/
def badCase : CaseDict :=
  CaseDict.mk (some ("BAD".toList)) none none none none none

end Aggregator

namespace Statstidende

theorem searchLoop_fail_iff (o : Strategy → Nat → SearchResp)
    (l : List Strategy) (last : Option Nat) :
    isDayFailure (searchLoop o l last) = true ↔
      ∀ a ∈ l, tryOk (try_one o a) = false := by
  induction l generalizing last with
  | nil =>
    cases last <;> simp [searchLoop, isDayFailure]
  | cons a rest ih =>
    rcases h : try_one o a with _ | s | ⟨pc, n, rs⟩
    · have hs : searchLoop o (a :: rest) last = searchLoop o rest last := by
        simp [searchLoop, h]
      rw [hs]
      constructor
      · intro hf b hb
        rcases List.mem_cons.mp hb with rfl | hb2
        · simp [tryOk, h]
        · exact (ih last).mp hf b hb2
      · intro hall
        exact (ih last).mpr (fun b hb => hall b (List.mem_cons_of_mem a hb))
    · have hs : searchLoop o (a :: rest) last = searchLoop o rest (some s) := by
        simp [searchLoop, h]
      rw [hs]
      constructor
      · intro hf b hb
        rcases List.mem_cons.mp hb with rfl | hb2
        · simp [tryOk, h]
        · exact (ih (some s)).mp hf b hb2
      · intro hall
        exact (ih (some s)).mpr (fun b hb => hall b (List.mem_cons_of_mem a hb))
    · have hs : searchLoop o (a :: rest) last = DayResult.ok pc n rs := by
        simp [searchLoop, h]
      rw [hs]
      constructor
      · intro hf
        exact absurd hf (by simp [isDayFailure])
      · intro hall
        have hcontra := hall a (List.mem_cons_self a rest)
        rw [h] at hcontra
        simp [tryOk] at hcontra

theorem searchLoop_raisedHttp (o : Strategy → Nat → SearchResp)
    (l : List Strategy) (last : Option Nat) (s : Nat) :
    searchLoop o l last = DayResult.raisedHttp s →
      (∃ a ∈ l, try_one o a = TryResult.httpError s) ∨ last = some s := by
  induction l generalizing last with
  | nil =>
    cases last with
    | none => intro h; exact absurd h (by simp [searchLoop])
    | some t =>
      intro h
      right
      simp only [searchLoop, DayResult.raisedHttp.injEq] at h
      exact congrArg some h
  | cons a rest ih =>
    intro h
    rcases ha : try_one o a with _ | t | ⟨pc, n, rs⟩
    · rcases ih last (by simpa [searchLoop, ha] using h) with ⟨b, hb, hb2⟩ | hl
      · exact Or.inl ⟨b, List.mem_cons_of_mem a hb, hb2⟩
      · exact Or.inr hl
    · rcases ih (some t) (by simpa [searchLoop, ha] using h) with ⟨b, hb, hb2⟩ | hl
      · exact Or.inl ⟨b, List.mem_cons_of_mem a hb, hb2⟩
      · refine Or.inl ⟨a, List.mem_cons_self a rest, ?_⟩
        rw [ha]
        cases hl
        rfl
    · exact absurd h (by simp [searchLoop, ha])

/-- C2 counterexample.  On an upstream where the first strategy answers with
status 404 (a non-success status other than the 500 fault status), the claim
predicts a hard failure reported up with no further strategy attempted; the
code instead records the error, tries the next strategy, and returns its
successful result. -/
theorem C2_counterexample_nonfault_status_not_fatal :
    try_one faultyFirstOracle (10, 40, true) = TryResult.httpError 404 ∧
    messagesearch_day faultyFirstOracle = DayResult.ok 1 1 [7] ∧
    messagesearch_day faultyFirstOracle ≠ DayResult.raisedHttp 404 := by
  refine ⟨by decide, by decide, by decide⟩

/-- C2 amended.  A 500 on any page abandons the current strategy, and every
other non-success status also abandons the current strategy (the error is
merely remembered); the day fetch fails if and only if no strategy in the
ordered attempt list fully succeeds, and when it fails by re-raising an HTTP
error, that error was produced by one of the attempted strategies. -/
theorem C2_amended_fallback_ladder (o : Strategy → Nat → SearchResp) :
    (isDayFailure (messagesearch_day o) = true ↔
      ∀ a ∈ attempts, tryOk (try_one o a) = false) ∧
    (∀ s, messagesearch_day o = DayResult.raisedHttp s →
      ∃ a ∈ attempts, try_one o a = TryResult.httpError s) := by
  constructor
  · exact searchLoop_fail_iff o attempts none
  · intro s h
    rcases searchLoop_raisedHttp o attempts none s h with hex | hl
    · exact hex
    · exact absurd hl (by simp)

/-- C2 amended, witnessed on concrete oracles: an upstream failing every
request with 404 makes every strategy fail, and the re-raised error is one
produced by an attempted strategy. -/
theorem C2_amended_fallback_ladder_witness :
    ∃ a ∈ attempts, try_one allFailOracle a = TryResult.httpError 404 :=
  (C2_amended_fallback_ladder allFailOracle).2 404 (by decide)

theorem drainPages_ok (o : Strategy → Nat → SearchResp) (a : Strategy)
    (pc : Nat) (rem : Nat) :
    ∀ page acc pc2 n2 rs2,
      drainPages o a pc rem page acc = TryResult.ok pc2 n2 rs2 →
      pc2 = pc ∧ n2 = rs2.length ∧ rs2 = acc ++ pagesFrom o a page rem := by
  induction rem with
  | zero =>
    intro page acc pc2 n2 rs2 h
    simp only [drainPages, TryResult.ok.injEq] at h
    refine ⟨h.1.symm, ?_, ?_⟩
    · rw [← h.2.2, ← h.2.1]
    · simp [← h.2.2, pagesFrom, List.range']
  | succ rem ih =>
    intro page acc pc2 n2 rs2 h
    simp only [drainPages] at h
    split at h
    · exact absurd h (by simp)
    · split at h
      · exact absurd h (by simp)
      · rcases ih (page + 1) (acc ++ (o a page).results) pc2 n2 rs2 h with
          ⟨h1, h2, h3⟩
        refine ⟨h1, h2, ?_⟩
        rw [h3]
        simp [pagesFrom, List.range'_succ page rem 1, List.append_assoc]

theorem try_one_ok (o : Strategy → Nat → SearchResp) (a : Strategy)
    (pc n : Nat) (rs : List Nat) :
    try_one o a = TryResult.ok pc n rs →
    n = rs.length ∧ rs = (o a 0).results ++ pagesFrom o a 1 (pc - 1) := by
  intro h
  simp only [try_one] at h
  split at h
  · exact absurd h (by simp)
  · split at h
    · exact absurd h (by simp)
    · rcases drainPages_ok o a (o a 0).pageCount ((o a 0).pageCount - 1)
        1 (o a 0).results pc n rs h with ⟨h1, h2, h3⟩
      subst h1
      exact ⟨h2, h3⟩

theorem searchLoop_ok (o : Strategy → Nat → SearchResp) (l : List Strategy)
    (last : Option Nat) (pc n : Nat) (rs : List Nat) :
    searchLoop o l last = DayResult.ok pc n rs →
      ∃ a ∈ l, try_one o a = TryResult.ok pc n rs := by
  induction l generalizing last with
  | nil =>
    cases last <;> intro h <;> exact absurd h (by simp [searchLoop])
  | cons a rest ih =>
    intro h
    rcases ha : try_one o a with _ | t | ⟨pc2, n2, rs2⟩
    · rcases ih last (by simpa [searchLoop, ha] using h) with ⟨b, hb, hb2⟩
      exact ⟨b, List.mem_cons_of_mem a hb, hb2⟩
    · rcases ih (some t) (by simpa [searchLoop, ha] using h) with ⟨b, hb, hb2⟩
      exact ⟨b, List.mem_cons_of_mem a hb, hb2⟩
    · refine ⟨a, List.mem_cons_self a rest, ?_⟩
      rw [ha]
      simp only [searchLoop, ha] at h
      cases h
      rfl

theorem pagesConcat_split (o : Strategy → Nat → SearchResp) (a : Strategy)
    (pc : Nat) (hpc : 1 ≤ pc) :
    pagesConcat o a pc = (o a 0).results ++ pagesFrom o a 1 (pc - 1) := by
  have h : pc = (pc - 1) + 1 := (Nat.succ_pred_eq_of_pos hpc).symm
  rw [pagesConcat, h, List.range_eq_range', List.range'_succ 0 (pc - 1) 1]
  simp [pagesFrom]

/-- C3 counterexample.  If the winning strategy's page 0 reports
`pageCount = 0` while carrying one result row, the code still returns that
row, whereas the claim says the returned list is the concatenation of pages
`0 .. pageCount - 1`, which is empty. -/
theorem C3_counterexample_zero_pagecount :
    messagesearch_day zeroPageOracle = DayResult.ok 0 1 [5] ∧
    pagesConcat zeroPageOracle (10, 40, true) 0 = [] ∧
    ([5] : List Nat) ≠ ([] : List Nat) := by
  refine ⟨by decide, by decide, by decide⟩

/-- C3 amended.  Whenever the day fetch returns successfully, its result is
exactly page 0 of the winning strategy followed by that strategy's pages
`1 .. pageCount - 1` — which equals the concatenation of pages
`0 .. pageCount - 1` whenever the reported page count is at least 1 — with
the reported `resultCount` equal to the length of that list; no partial page
set is ever returned. -/
theorem C3_amended_fetch_completeness (o : Strategy → Nat → SearchResp)
    (pc n : Nat) (rs : List Nat) :
    messagesearch_day o = DayResult.ok pc n rs →
    n = rs.length ∧
    ∃ a ∈ attempts, try_one o a = TryResult.ok pc n rs ∧
      rs = (o a 0).results ++ pagesFrom o a 1 (pc - 1) ∧
      (1 ≤ pc → rs = pagesConcat o a pc) := by
  intro h
  rcases searchLoop_ok o attempts none pc n rs h with ⟨a, ha, hok⟩
  rcases try_one_ok o a pc n rs hok with ⟨hn, hrs⟩
  refine ⟨hn, a, ha, hok, hrs, ?_⟩
  intro hpc
  rw [pagesConcat_split o a pc hpc]
  exact hrs

/-- C3 amended, witnessed on a concrete single-page oracle. -/
theorem C3_amended_fetch_completeness_witness :
    1 = ([3] : List Nat).length ∧
    ∃ a ∈ attempts, try_one goodOracle a = TryResult.ok 1 1 [3] ∧
      [3] = (goodOracle a 0).results ++ pagesFrom goodOracle a 1 (1 - 1) ∧
      (1 ≤ 1 → [3] = pagesConcat goodOracle a 1) :=
  C3_amended_fetch_completeness goodOracle 1 1 [3] (by decide)

/-- C7 counterexample.  For a message whose document is the JSON string of a
bare number — a JSON string whose parsed value carries neither required
key, inside the claim's stated failure condition — the claim predicts the
`MalformedDocument` (`ValueError`) failure; the code instead raises
`TypeError` at the membership check `"fieldgroups" not in parsed`. -/
theorem C7_counterexample_scalar_document :
    normalize_document_inplace scalarDocMessage = Except.error PyError.typeError ∧
    PyError.typeError ≠ PyError.valueError := by
  refine ⟨by decide, by decide⟩

/-- C7 amended.  Normalizing a fetched message fails with the `ValueError`
standing for `MalformedDocument` when the document entry is missing or of
invalid type, when its JSON string fails to decode, or when the parsed value
supports the membership check (a dict by its keys, a string by substring, an
array by element) but lacks either of `fieldgroups` and
`defaultfieldgroups`; a parsed non-container scalar raises `TypeError` at
the membership check instead, and a parsed string or array that passes the
membership check raises `AttributeError` at the field-group extraction; only
for a parsed JSON object with both keys present does normalization succeed,
keeping the document as a JSON string that parses back to the same object
and attaching both field-group collections. -/
theorem C7_amended_document_validation (m : Message) :
    (match parsedOf m.document with
     | none => normalize_document_inplace m = Except.error PyError.valueError
     | some (ParsedJson.obj d) =>
       if d.fieldgroups.isSome ∧ d.defaultfieldgroups.isSome then
         normalize_document_inplace m =
           Except.ok (Message.mk (DocumentVal.str (some (ParsedJson.obj d)))
             d.fieldgroups d.defaultfieldgroups (some d))
       else normalize_document_inplace m = Except.error PyError.valueError
     | some (ParsedJson.strVal hasFG hasDFG) =>
       normalize_document_inplace m = Except.error
         (if hasFG && hasDFG then PyError.attributeError else PyError.valueError)
     | some (ParsedJson.arrVal hasFG hasDFG) =>
       normalize_document_inplace m = Except.error
         (if hasFG && hasDFG then PyError.attributeError else PyError.valueError)
     | some ParsedJson.scalar =>
       normalize_document_inplace m = Except.error PyError.typeError) := by
  rcases m with ⟨doc, fg, dfg, dobj⟩
  rcases doc with p | d | _
  · rcases p with _ | parsed
    · simp [parsedOf, normalize_document_inplace]
    · rcases parsed with d | ⟨f, g⟩ | ⟨f, g⟩ | _
      · rcases d with ⟨fgs, dfgs, r⟩
        rcases fgs with _ | x <;> rcases dfgs with _ | y <;>
          simp [parsedOf, normalize_document_inplace, checkAndAttach]
      · cases f <;> cases g <;>
          simp [parsedOf, normalize_document_inplace, checkAndAttach]
      · cases f <;> cases g <;>
          simp [parsedOf, normalize_document_inplace, checkAndAttach]
      · simp [parsedOf, normalize_document_inplace, checkAndAttach]
  · rcases d with ⟨fgs, dfgs, r⟩
    rcases fgs with _ | x <;> rcases dfgs with _ | y <;>
      simp [parsedOf, normalize_document_inplace, checkAndAttach]
  · simp [parsedOf, normalize_document_inplace]

end Statstidende

namespace Xbrl

theorem listMax_cons (v w : ℚ) (ws : List ℚ) :
    listMax v (w :: ws) = listMax (max v w) ws := rfl

theorem listMax_mem (v : ℚ) (vs : List ℚ) : listMax v vs ∈ v :: vs := by
  induction vs generalizing v with
  | nil => simp [listMax]
  | cons w ws ih =>
    rw [listMax_cons, List.mem_cons, List.mem_cons]
    rcases List.mem_cons.mp (ih (max v w)) with h1 | h1
    · rcases max_choice v w with hm | hm
      · exact Or.inl (h1.trans hm)
      · exact Or.inr (Or.inl (h1.trans hm))
    · exact Or.inr (Or.inr h1)

theorem le_listMax (v : ℚ) (vs : List ℚ) : ∀ w ∈ v :: vs, w ≤ listMax v vs := by
  induction vs generalizing v with
  | nil =>
    intro w hw
    rcases List.mem_cons.mp hw with rfl | h
    · exact le_refl w
    · exact absurd h (List.not_mem_nil w)
  | cons u us ih =>
    intro w hw
    rw [listMax_cons]
    have hhead : max v u ≤ listMax (max v u) us :=
      ih (max v u) (max v u) (List.mem_cons_self _ _)
    rcases List.mem_cons.mp hw with rfl | h
    · exact le_trans (le_max_left w u) hhead
    · rcases List.mem_cons.mp h with rfl | h2
      · exact le_trans (le_max_right v w) hhead
      · exact ih (max v u) w (List.mem_cons_of_mem _ h2)

theorem assetRows_tag_once (root : XmlEl) (tag : Str) (l : List (Str × Str))
    (hl : (l.map Prod.fst).Nodup) :
    (l.filterMap (fun kv =>
      match moduleCollect root (localTag kv.1) with
      | [] => none
      | v :: vs => some (kv.1, kv.2, listMax v vs))).countP
        (fun e => e.1 == tag) ≤ 1 := by
  induction l with
  | nil => simp
  | cons kv l ih =>
    rw [List.map_cons, List.nodup_cons] at hl
    rcases hcol : moduleCollect root (localTag kv.1) with _ | ⟨v0, vs⟩
    · simp only [List.filterMap_cons, hcol]
      exact ih hl.2
    · simp only [List.filterMap_cons, hcol]
      rw [List.countP_cons]
      by_cases hp : kv.1 = tag
      · have hzero : (l.filterMap (fun kv =>
            match moduleCollect root (localTag kv.1) with
            | [] => none
            | v :: vs => some (kv.1, kv.2, listMax v vs))).countP
              (fun e => e.1 == tag) = 0 := by
          rw [List.countP_eq_zero]
          intro e he
          rcases List.mem_filterMap.mp he with ⟨kv2, hkv2, hmatch⟩
          rcases hcol2 : moduleCollect root (localTag kv2.1) with _ | ⟨w0, ws⟩
          · rw [hcol2] at hmatch
            exact absurd hmatch (by simp)
          · rw [hcol2] at hmatch
            have he1 : e.1 = kv2.1 := by
              cases hmatch
              rfl
            have hne : kv2.1 ≠ kv.1 := by
              intro hcontra
              exact hl.1 (hcontra ▸ List.mem_map_of_mem Prod.fst hkv2)
            simp only [beq_iff_eq, he1]
            rw [← hp]
            exact hne
        rw [hzero]
        split <;> simp
      · have hfalse : ((kv.1, kv.2, listMax v0 vs).1 == tag) = false := by
          simp [hp]
        rw [hfalse]
        simpa using ih hl.2

theorem moduleAssets_mem (root : XmlEl) (tag name : Str) (v : ℚ)
    (h : (tag, name, v) ∈ moduleAssets root) :
    v ∈ moduleCollect root (localTag tag) ∧
    ∀ w ∈ moduleCollect root (localTag tag), w ≤ v := by
  rcases List.mem_filterMap.mp h with ⟨kv, _, hmatch⟩
  rcases hcol : moduleCollect root (localTag kv.1) with _ | ⟨v0, vs⟩
  · rw [hcol] at hmatch
    exact absurd hmatch (by simp)
  · rw [hcol] at hmatch
    have h1 : kv.1 = tag ∧ kv.2 = name ∧ listMax v0 vs = v := by
      refine ⟨?_, ?_, ?_⟩ <;> cases hmatch <;> rfl
    rw [← h1.1, hcol, ← h1.2.2]
    exact ⟨listMax_mem v0 vs, le_listMax v0 vs⟩

/-- C4 counterexample.  On a tree holding watched elements with values -300
and 100, the code emits 100 (the plain signed maximum), although the parsed
value -300 has the strictly larger absolute value 300: the emitted field
does not carry the maximum absolute value. -/
theorem C4_counterexample_signed_max :
    parse_xbrl_assets (some signedRoot) =
      Except.ok [("e:Vehicles".toList, "Vehicles".toList, (100 : ℚ))] ∧
    (-300 : ℚ) ∈ moduleCollect signedRoot (localTag ("e:Vehicles".toList)) ∧
    |(100 : ℚ)| < |(-300 : ℚ)| := by
  refine ⟨by decide, by decide, by decide⟩

/-- C4 amended.  For every watched tag emitted by the extractor, the emitted
value is the plain (signed) maximum of the values parsed for that tag: it is
one of the parsed values and no parsed value exceeds it; and at most one
field is emitted per tag.  In particular two matching elements with values
100 and 250 emit 250 (see the witness). -/
theorem C4_amended_max_wins (root : XmlEl) (tag name : Str) (v : ℚ)
    (h : (tag, name, v) ∈ moduleAssets root) :
    v ∈ moduleCollect root (localTag tag) ∧
    (∀ w ∈ moduleCollect root (localTag tag), w ≤ v) ∧
    (moduleAssets root).countP (fun e => e.1 == tag) ≤ 1 := by
  rcases moduleAssets_mem root tag name v h with ⟨h1, h2⟩
  exact ⟨h1, h2, assetRows_tag_once root tag ASSET_TAGS (by decide)⟩

/-- C4 amended witness: the 100/250 instance of the claim, where the emitted
value 250 is the maximum of the two parsed values. -/
theorem C4_amended_max_wins_witness :
    (("e:Vehicles".toList, "Vehicles".toList, (250 : ℚ)) ∈ moduleAssets maxRoot) ∧
    ((250 : ℚ) ∈ moduleCollect maxRoot (localTag ("e:Vehicles".toList)) ∧
     (∀ w ∈ moduleCollect maxRoot (localTag ("e:Vehicles".toList)), w ≤ (250 : ℚ)) ∧
     (moduleAssets maxRoot).countP (fun e => e.1 == ("e:Vehicles".toList)) ≤ 1) :=
  ⟨by decide, C4_amended_max_wins maxRoot ("e:Vehicles".toList) ("Vehicles".toList)
    (250 : ℚ) (by decide)⟩

theorem filterMap_guard_eq (p : Char → Bool) (g : Char → Char) (l : Str) :
    l.filterMap (fun c => if p c then some (g c) else none) = (l.filter p).map g := by
  induction l with
  | nil => rfl
  | cons c cs ih =>
    cases h : p c <;> simp [List.filterMap_cons, List.filter_cons, h, ih]

theorem spec_clean_eq (cs : Str) :
    cs.filterMap (fun c =>
      if c == (',' : Char) then some ('.' : Char)
      else if c.isDigit || c == ('.' : Char) || c == ('-' : Char) then some c
      else none) = commaToDot (cs.filter keepNumChar) := by
  have hpoint : (fun c =>
      if c == (',' : Char) then some ('.' : Char)
      else if c.isDigit || c == ('.' : Char) || c == ('-' : Char) then some c
      else none)
      = (fun c => if keepNumChar c then
          some (if c == (',' : Char) then ('.' : Char) else c) else none) := by
    funext c
    by_cases h1 : c = (',' : Char) <;>
      by_cases hd : c.isDigit = true <;>
      by_cases hp : c = ('.' : Char) <;>
      by_cases hm : c = ('-' : Char) <;>
        simp [keepNumChar, h1, hd, hp, hm]
  rw [hpoint, filterMap_guard_eq]
  rfl

theorem to_float_eq_spec (s : Str) : to_float s = spec_parse_number s := by
  rcases s with _ | ⟨c, cs⟩
  · decide
  · unfold to_float spec_parse_number
    rw [spec_clean_eq]
    simp

theorem fetchContribution_eq_spec (s : Str) :
    fetchContribution s = spec_contribution s := by
  unfold fetchContribution spec_contribution
  rw [to_float_eq_spec]

/-- C5.  The per-element number parsing of the asset extractor agrees with
the specified rule: all characters except digits, comma, period and minus
are stripped, commas become the decimal separator, and an element whose text
fails the parse or parses to zero contributes no value; accordingly the
collected value list of every watched key is the spec-side contribution of
every matching element's text. -/
theorem C5_number_parsing_rule :
    (∀ s, to_float s = spec_parse_number s) ∧
    (∀ s, fetchContribution s = spec_contribution s) ∧
    (∀ root key, fetchCollect root key =
      (iterEls root).filterMap (fun el =>
        if key.isSuffixOf (tagOf el) then spec_contribution (textOrEmpty (textOf el))
        else none)) := by
  refine ⟨to_float_eq_spec, fetchContribution_eq_spec, ?_⟩
  intro root key
  unfold fetchCollect
  congr 1
  funext el
  cases h : key.isSuffixOf (tagOf el) <;>
    simp [h, fetchContribution_eq_spec]

/-- C6 counterexample.  On byte content that cannot be parsed as well-formed
XML, the claim predicts a raised `MalformedDocument`; the extractor instead
catches the parse failure and returns the empty list without raising. -/
theorem C6_counterexample_malformed_returns_empty :
    Fetch_parse_xbrl_assets (XbrlInput.bytes none) = Except.ok [] ∧
    (Fetch_parse_xbrl_assets (XbrlInput.bytes none)).isOk = true := by
  refine ⟨by decide, by decide⟩

/-- C6 amended.  The extractor never raises: it returns the empty list for
the error-shaped fallback object, for byte content that is not well-formed
XML, and for well-formed XML containing no watched tag. -/
theorem C6_amended_never_raises :
    (∀ inp, (Fetch_parse_xbrl_assets inp).isOk = true) ∧
    Fetch_parse_xbrl_assets XbrlInput.dict = Except.ok [] ∧
    Fetch_parse_xbrl_assets (XbrlInput.bytes none) = Except.ok [] ∧
    (∀ root,
      (∀ el ∈ iterEls root, ∀ kv ∈ FIELD_MAP, (kv.1).isSuffixOf (tagOf el) = false) →
      Fetch_parse_xbrl_assets (XbrlInput.bytes (some root)) = Except.ok []) := by
  refine ⟨?_, rfl, rfl, ?_⟩
  · intro inp
    rcases inp with _ | ⟨_ | root⟩ <;> rfl
  · intro root h
    have hrows : FIELD_MAP.filterMap (fun kv =>
        match fetchCollect root kv.1 with
        | [] => none
        | v :: vs => some (kv.1, kv.2, listMax v vs)) = [] := by
      rw [List.filterMap_eq_nil_iff]
      intro kv hkv
      have hcol : fetchCollect root kv.1 = [] := by
        unfold fetchCollect
        rw [List.filterMap_eq_nil_iff]
        intro el hel
        rw [h el hel kv hkv]
        rfl
      rw [hcol]
    have hdef : Fetch_parse_xbrl_assets (XbrlInput.bytes (some root)) =
        Except.ok (sortByOrder (FIELD_MAP.filterMap (fun kv =>
          match fetchCollect root kv.1 with
          | [] => none
          | v :: vs => some (kv.1, kv.2, listMax v vs)))) := rfl
    rw [hdef, hrows]
    rfl

/-- C6 amended witness: a well-formed tree with no watched tag yields the
empty list. -/
theorem C6_amended_never_raises_witness :
    Fetch_parse_xbrl_assets (XbrlInput.bytes (some noTagRoot)) = Except.ok [] :=
  C6_amended_never_raises.2.2.2 noTagRoot (by decide)

end Xbrl

namespace Aggregator

theorem updateFirst_length {α : Type} (p : α → Bool) (f : α → α) (l : List α) :
    (updateFirst p f l).length = l.length := by
  induction l with
  | nil => rfl
  | cons x xs ih =>
    unfold updateFirst
    split <;> simp [ih]

theorem any_updateFirst {α : Type} (p : α → Bool) (f : α → α) (l : List α)
    (hf : ∀ x, p x = true → p (f x) = true) (hl : l.any p = true) :
    (updateFirst p f l).any p = true := by
  induction l with
  | nil => simp at hl
  | cons x xs ih =>
    unfold updateFirst
    cases hx : p x with
    | true => simp [hf x hx]
    | false =>
      rw [List.any_cons, hx] at hl
      simp only [Bool.false_or] at hl
      simp [hx, ih hl]

theorem countP_updateFirst {α : Type} (p : α → Bool) (f : α → α) (l : List α)
    (hf : ∀ x, p x = true → p (f x) = true) :
    (updateFirst p f l).countP p = l.countP p := by
  induction l with
  | nil => rfl
  | cons x xs ih =>
    unfold updateFirst
    cases hx : p x with
    | true => simp [List.countP_cons, hx, hf x hx]
    | false => simp [List.countP_cons, hx, ih]

theorem mem_updateFirst_of_find {α : Type} (p : α → Bool) (f : α → α)
    (l : List α) (x : α) (h : l.find? p = some x) :
    f x ∈ updateFirst p f l := by
  induction l with
  | nil => exact absurd h (by simp)
  | cons y ys ih =>
    unfold updateFirst
    cases hy : p y with
    | true =>
      rw [List.find?_cons_of_pos _ hy] at h
      cases h
      simp
    | false =>
      rw [List.find?_cons_of_neg _ (by simp [hy])] at h
      simp [hy, ih h]

theorem mem_updateFirst_const {α : Type} (p : α → Bool) (row : α) (l : List α)
    (hl : l.any p = true) : row ∈ updateFirst p (fun _ => row) l := by
  induction l with
  | nil => simp at hl
  | cons x xs ih =>
    unfold updateFirst
    cases hx : p x with
    | true => simp
    | false =>
      rw [List.any_cons, hx] at hl
      simp only [Bool.false_or] at hl
      simp [ih hl]

theorem any_of_find {α : Type} (p : α → Bool) (l : List α) (x : α)
    (h : l.find? p = some x) : l.any p = true := by
  rw [List.any_eq_true]
  have hs : (l.find? p).isSome := by rw [h]; rfl
  exact List.find?_isSome.mp hs

theorem upsert_case_row (db : Db) (case : CaseDict) (co : Option CompanyRow)
    (la : Option LawyerRow) :
    ((upsert_insolvency_case db case co la).2).raw = case ∧
    ((upsert_insolvency_case db case co la).2).cvr =
      (match co with | some c => some c.cvr | none => case.cvr) ∧
    ((upsert_insolvency_case db case co la).2).lawyer_id =
      (match la with | some l => some l.id | none => none) ∧
    (upsert_insolvency_case db case co la).2 ∈
      ((upsert_insolvency_case db case co la).1).cases ∧
    ((upsert_insolvency_case db case co la).1).lawyers = db.lawyers ∧
    ((upsert_insolvency_case db case co la).1).companies = db.companies := by
  rcases hf : caseLookup db (mkCasePayload case co la) with _ | ex
  · refine ⟨?_, ?_, ?_, ?_, ?_, ?_⟩
    · simp only [upsert_insolvency_case, hf]
      rfl
    · simp only [upsert_insolvency_case, hf]
      rfl
    · simp only [upsert_insolvency_case, hf]
      rfl
    · simp only [upsert_insolvency_case, hf]
      simp
    · simp only [upsert_insolvency_case, hf]
    · simp only [upsert_insolvency_case, hf]
  · have hfind : db.cases.find? (fun r =>
        r.message_number == (mkCasePayload case co la).message_number) = some ex := by
      unfold caseLookup at hf
      split at hf
      · exact hf
      · exact absurd hf (by simp)
    refine ⟨?_, ?_, ?_, ?_, ?_, ?_⟩
    · simp only [upsert_insolvency_case, hf]
      rfl
    · simp only [upsert_insolvency_case, hf]
      rfl
    · simp only [upsert_insolvency_case, hf]
      rfl
    · simp only [upsert_insolvency_case, hf]
      exact mem_updateFirst_of_find _ _ _ ex hfind
    · simp only [upsert_insolvency_case, hf]
    · simp only [upsert_insolvency_case, hf]

theorem upsert_lawyer_ok (db : Db) (ld : LawyerFields) (n : Str)
    (hname : ld.name = some n) (hn : n.isEmpty = false) :
    ∃ row : LawyerRow,
      (upsert_lawyer db ld).2 = some row ∧
      row ∈ ((upsert_lawyer db ld).1).lawyers ∧
      row.name = n ∧
      ((upsert_lawyer db ld).1).cases = db.cases ∧
      ((upsert_lawyer db ld).1).companies = db.companies := by
  rcases hl : lawyerLookup db n ld.firm with _ | ex
  · refine ⟨LawyerRow.mk db.nextLawyerId n ld.firm ld.city ld.email ld.cvr ld.phone,
      ?_, ?_, rfl, ?_, ?_⟩
    · simp [upsert_lawyer, hname, hn, hl]
    · simp [upsert_lawyer, hname, hn, hl]
    · simp [upsert_lawyer, hname, hn, hl]
    · simp [upsert_lawyer, hname, hn, hl]
  · refine ⟨LawyerRow.mk ex.id n ld.firm ld.city ld.email ld.cvr ld.phone,
      ?_, ?_, rfl, ?_, ?_⟩
    · simp [upsert_lawyer, hname, hn, hl]
    · simp only [upsert_lawyer, hname, hn, hl, Bool.false_eq_true, if_false]
      exact mem_updateFirst_const _ _ _ (any_of_find _ _ ex hl)
    · simp [upsert_lawyer, hname, hn, hl]
    · simp [upsert_lawyer, hname, hn, hl]

theorem upsert_case_any_match (db : Db) (case : CaseDict) (co : Option CompanyRow)
    (la : Option LawyerRow) (mn : Str)
    (hmn : case.messageNumber = some mn) :
    (((upsert_insolvency_case db case co la).1).cases.any
      (fun r => r.message_number == some mn)) = true := by
  have hp : (mkCasePayload case co la).message_number = some mn := hmn
  rcases hf : caseLookup db (mkCasePayload case co la) with _ | ex
  · simp only [upsert_insolvency_case, hf]
    rw [List.any_append]
    simp [hp]
  · have hfind : db.cases.find? (fun r =>
        r.message_number == (mkCasePayload case co la).message_number) = some ex := by
      unfold caseLookup at hf
      split at hf
      · exact hf
      · exact absurd hf (by simp)
    simp only [upsert_insolvency_case, hf]
    rw [hp] at hfind ⊢
    exact any_updateFirst _ _ _ (fun x _ => by simp [applyCasePayload, hp])
      (any_of_find _ _ ex hfind)

theorem upsert_case_update_length (db : Db) (case : CaseDict) (co : Option CompanyRow)
    (la : Option LawyerRow) (mn : Str)
    (hmn : case.messageNumber = some mn) (hne : mn.isEmpty = false)
    (hmatch : db.cases.any (fun r => r.message_number == some mn) = true) :
    ((upsert_insolvency_case db case co la).1).cases.length = db.cases.length := by
  have hp : (mkCasePayload case co la).message_number = some mn := hmn
  have hsome : (db.cases.find? (fun r =>
      r.message_number == (mkCasePayload case co la).message_number)).isSome := by
    rw [hp]
    exact List.find?_isSome.mpr (List.any_eq_true.mp hmatch)
  rcases hx : db.cases.find? (fun r =>
      r.message_number == (mkCasePayload case co la).message_number) with _ | ex
  · rw [hx] at hsome
    exact absurd hsome (by simp)
  · have hf : caseLookup db (mkCasePayload case co la) = some ex := by
      unfold caseLookup
      rw [hp]
      simp only [truthy, hne, Bool.not_false, if_true]
      rw [← hp]
      exact hx
    simp only [upsert_insolvency_case, hf]
    exact updateFirst_length _ _ _

theorem upsert_case_countP (db : Db) (case : CaseDict) (co : Option CompanyRow)
    (la : Option LawyerRow) (mn : Str)
    (hmn : case.messageNumber = some mn) (hne : mn.isEmpty = false)
    (huniq : db.cases.countP (fun r => r.message_number == some mn) ≤ 1) :
    ((upsert_insolvency_case db case co la).1).cases.countP
      (fun r => r.message_number == some mn) ≤ 1 := by
  have hp : (mkCasePayload case co la).message_number = some mn := hmn
  rcases hf : caseLookup db (mkCasePayload case co la) with _ | ex
  · have hfind : db.cases.find? (fun r => r.message_number == some mn) = none := by
      unfold caseLookup at hf
      rw [hp] at hf
      simp only [truthy, hne, Bool.not_false, if_true] at hf
      exact hf
    have hzero : db.cases.countP (fun r => r.message_number == some mn) = 0 := by
      rw [List.countP_eq_zero]
      intro a ha
      simpa using List.find?_eq_none.mp hfind a ha
    simp only [upsert_insolvency_case, hf]
    rw [List.countP_append, hzero]
    simp [List.countP_cons, hp]
  · simp only [upsert_insolvency_case, hf]
    rw [hp]
    rw [countP_updateFirst _ _ _ (fun x _ => by simp [applyCasePayload, hp])]
    exact huniq

/-- C1.  For a case dict with a non-empty `messageNumber`, upserting it a
second time (with any company and lawyer references) finds the row written
by the first upsert and updates it in place: the row count after the second
upsert equals the row count after the first, and the at-most-one-row
invariant for that message number is preserved.  The `countP` hypothesis is
the schema's uniqueness constraint on `message_number`, under which the
first-match update coincides with the session's `one_or_none` lookup. -/
theorem C1_upsert_idempotent_rowcount (db : Db) (case : CaseDict)
    (c1 c2 : Option CompanyRow) (l1 l2 : Option LawyerRow) (mn : Str)
    (hmn : case.messageNumber = some mn) (hne : mn.isEmpty = false)
    (huniq : db.cases.countP (fun r => r.message_number == some mn) ≤ 1) :
    ((upsert_insolvency_case (upsert_insolvency_case db case c1 l1).1
        case c2 l2).1).cases.length
      = ((upsert_insolvency_case db case c1 l1).1).cases.length ∧
    ((upsert_insolvency_case (upsert_insolvency_case db case c1 l1).1
        case c2 l2).1).cases.countP (fun r => r.message_number == some mn) ≤ 1 := by
  have h1 := upsert_case_any_match db case c1 l1 mn hmn
  refine ⟨upsert_case_update_length _ case c2 l2 mn hmn hne h1, ?_⟩
  exact upsert_case_countP _ case c2 l2 mn hmn hne
    (upsert_case_countP db case c1 l1 mn hmn hne huniq)

/-- C1, witnessed on the empty session and a concrete message number: the
second upsert leaves the single row in place. -/
theorem C1_upsert_idempotent_rowcount_witness :
    (((upsert_insolvency_case (upsert_insolvency_case emptyDb mnCase none none).1
        mnCase none none).1).cases.length
      = ((upsert_insolvency_case emptyDb mnCase none none).1).cases.length) ∧
    ((upsert_insolvency_case (upsert_insolvency_case emptyDb mnCase none none).1
        mnCase none none).1).cases.countP
          (fun r => r.message_number == some ("M1".toList)) ≤ 1 :=
  C1_upsert_idempotent_rowcount emptyDb mnCase none none none none ("M1".toList)
    (by decide) (by decide) (by decide)

theorem msgNumberUnique_append_none (rows : List CaseRow) (r : CaseRow)
    (hr : r.message_number = none) (h : msgNumberUnique rows = true) :
    msgNumberUnique (rows ++ [r]) = true := by
  unfold msgNumberUnique at h ⊢
  rw [List.all_eq_true] at h ⊢
  intro x hx
  rcases List.mem_append.mp hx with hx1 | hx2
  · have hx3 := h x hx1
    rcases hm : x.message_number with _ | s
    · simp [hm]
    · rw [hm] at hx3
      simp only [hm, decide_eq_true_eq] at hx3 ⊢
      rw [List.countP_append]
      have hzero : List.countP (fun x => x.message_number == some s) [r] = 0 := by
        simp [List.countP_cons, hr]
      rw [hzero]
      simpa using hx3
  · rcases List.mem_singleton.mp hx2 with rfl
    simp [hr]

theorem msgNumberUnique_append_fresh (rows : List CaseRow) (r : CaseRow) (s : Str)
    (hr : r.message_number = some s)
    (hzero : rows.countP (fun x => x.message_number == some s) = 0)
    (h : msgNumberUnique rows = true) :
    msgNumberUnique (rows ++ [r]) = true := by
  unfold msgNumberUnique at h ⊢
  rw [List.all_eq_true] at h ⊢
  intro x hx
  rcases List.mem_append.mp hx with hx1 | hx2
  · have hx3 := h x hx1
    rcases hm : x.message_number with _ | t
    · simp [hm]
    · rw [hm] at hx3
      simp only [hm, decide_eq_true_eq] at hx3 ⊢
      rw [List.countP_append]
      by_cases hts : t = s
      · exfalso
        have hpos : 0 < rows.countP (fun x => x.message_number == some s) :=
          List.countP_pos_iff.mpr ⟨x, hx1, by simp [hm, hts]⟩
        omega
      · have hz : List.countP (fun x => x.message_number == some t) [r] = 0 := by
          simp [List.countP_cons, hr]
          exact Ne.symm hts
        rw [hz]
        simpa using hx3
  · rcases List.mem_singleton.mp hx2 with rfl
    rw [hr]
    simp only [hr, decide_eq_true_eq]
    rw [List.countP_append, hzero]
    simp [List.countP_cons, hr]

theorem msgNumberUnique_dup (rows : List CaseRow) (r1 r2 : CaseRow) (s : Str)
    (h1 : r1.message_number = some s) (h2 : r2.message_number = some s) :
    msgNumberUnique (rows ++ [r1, r2]) = false := by
  cases hall : msgNumberUnique (rows ++ [r1, r2]) with
  | false => rfl
  | true =>
    exfalso
    unfold msgNumberUnique at hall
    rw [List.all_eq_true] at hall
    have hr1mem : r1 ∈ rows ++ [r1, r2] := by simp
    have hx := hall r1 hr1mem
    rw [h1] at hx
    simp only [h1, decide_eq_true_eq] at hx
    have htwo : List.countP (fun x => x.message_number == some s) [r1, r2] = 2 := by
      simp [List.countP_cons, h1, h2]
    rw [List.countP_append, htwo] at hx
    omega

/-- C10 counterexample.  On the empty session, upserting a case dict with an
empty-string `messageNumber` twice does not persist two rows: the first
upsert's flush succeeds, but the second insert violates the unique
constraint on `message_number` (the empty string is a non-NULL value) and
its flush raises `IntegrityError`. -/
theorem C10_counterexample_empty_string_unique :
    upsert_insolvency_case_flushed emptyDb blankCase none none =
      Except.ok (upsert_insolvency_case emptyDb blankCase none none) ∧
    upsert_insolvency_case_flushed
        (upsert_insolvency_case emptyDb blankCase none none).1 blankCase none none
      = Except.error DbError.integrityError := by
  refine ⟨by decide, by decide⟩

/-- C10 amended.  For a case dict whose `messageNumber` is missing, None or
empty, the upsert performs no lookup and always constructs and adds a new
row to the session.  With a missing or None `messageNumber` the flush
succeeds both times — NULLs are exempt from the unique constraint — and the
two calls persist two rows with distinct primary keys; with the empty-string
`messageNumber`, the first flush succeeds when no empty-string row exists
yet, and the second flush raises `IntegrityError` instead of persisting a
second row. -/
theorem C10_amended_falsy_message_number (db : Db) (case : CaseDict)
    (c1 c2 : Option CompanyRow) (l1 l2 : Option LawyerRow)
    (h : truthy case.messageNumber = false)
    (hun : msgNumberUnique db.cases = true) :
    ((upsert_insolvency_case db case c1 l1).1).cases.length = db.cases.length + 1 ∧
    (case.messageNumber = none →
      upsert_insolvency_case_flushed db case c1 l1 =
        Except.ok (upsert_insolvency_case db case c1 l1) ∧
      upsert_insolvency_case_flushed (upsert_insolvency_case db case c1 l1).1
          case c2 l2 =
        Except.ok (upsert_insolvency_case (upsert_insolvency_case db case c1 l1).1
          case c2 l2) ∧
      ∃ r1 r2 : CaseRow,
        ((upsert_insolvency_case (upsert_insolvency_case db case c1 l1).1
            case c2 l2).1).cases = db.cases ++ [r1, r2] ∧ r1.id ≠ r2.id) ∧
    (case.messageNumber = some ([] : Str) →
      db.cases.countP (fun r => r.message_number == some ([] : Str)) = 0 →
      upsert_insolvency_case_flushed db case c1 l1 =
        Except.ok (upsert_insolvency_case db case c1 l1) ∧
      upsert_insolvency_case_flushed (upsert_insolvency_case db case c1 l1).1
          case c2 l2 = Except.error DbError.integrityError) := by
  have hlook : ∀ (d : Db) (co : Option CompanyRow) (la : Option LawyerRow),
      caseLookup d (mkCasePayload case co la) = none := by
    intro d co la
    unfold caseLookup
    have hmn : truthy (mkCasePayload case co la).message_number = false := h
    rw [hmn]
    simp
  have hup : ∀ (d : Db) (co : Option CompanyRow) (la : Option LawyerRow),
      upsert_insolvency_case d case co la =
        (Db.mk (d.cases ++ [CaseRow.mk d.nextCaseId case.messageNumber
            case.publicationDate case.company_name
            (match co with | some x => some x.cvr | none => case.cvr)
            case.court (match la with | some l => some l.id | none => none) case])
          d.lawyers d.companies (d.nextCaseId + 1) d.nextLawyerId,
         CaseRow.mk d.nextCaseId case.messageNumber case.publicationDate
           case.company_name (match co with | some x => some x.cvr | none => case.cvr)
           case.court (match la with | some l => some l.id | none => none) case) := by
    intro d co la
    simp only [upsert_insolvency_case, hlook]
    simp [mkCasePayload]
  refine ⟨?_, ?_, ?_⟩
  · rw [hup db c1 l1]
    simp
  · intro hn
    have hu1 : msgNumberUnique ((upsert_insolvency_case db case c1 l1).1).cases = true := by
      rw [hup db c1 l1]
      exact msgNumberUnique_append_none db.cases _ hn hun
    have hu2 : msgNumberUnique ((upsert_insolvency_case
        (upsert_insolvency_case db case c1 l1).1 case c2 l2).1).cases = true := by
      rw [hup (upsert_insolvency_case db case c1 l1).1 c2 l2]
      exact msgNumberUnique_append_none _ _ hn hu1
    refine ⟨?_, ?_, ?_⟩
    · simp only [upsert_insolvency_case_flushed, hu1, if_true]
    · simp only [upsert_insolvency_case_flushed, hu2, if_true]
    · refine ⟨(upsert_insolvency_case db case c1 l1).2,
        (upsert_insolvency_case (upsert_insolvency_case db case c1 l1).1
          case c2 l2).2, ?_, ?_⟩
      · simp only [hup]
        rw [List.append_assoc]
        rfl
      · simp only [hup]
        omega
  · intro hs hzero
    have hu1 : msgNumberUnique ((upsert_insolvency_case db case c1 l1).1).cases = true := by
      rw [hup db c1 l1]
      exact msgNumberUnique_append_fresh db.cases _ ([] : Str) hs hzero hun
    refine ⟨?_, ?_⟩
    · simp only [upsert_insolvency_case_flushed, hu1, if_true]
    · have hu2 : msgNumberUnique ((upsert_insolvency_case
          (upsert_insolvency_case db case c1 l1).1 case c2 l2).1).cases = false := by
        simp only [hup]
        rw [List.append_assoc]
        exact msgNumberUnique_dup db.cases _ _ ([] : Str) hs hs
      simp only [upsert_insolvency_case_flushed, hu2, Bool.false_eq_true, if_false]

/-- C10 amended, witnessed on the empty session: a case with no message
number persists two distinct rows across two flushed upserts, while a case
with the empty-string message number has its second flush fail with
`IntegrityError`. -/
theorem C10_amended_falsy_message_number_witness :
    (upsert_insolvency_case_flushed emptyDb noneCase none none =
        Except.ok (upsert_insolvency_case emptyDb noneCase none none) ∧
      upsert_insolvency_case_flushed (upsert_insolvency_case emptyDb noneCase none none).1
          noneCase none none =
        Except.ok (upsert_insolvency_case
          (upsert_insolvency_case emptyDb noneCase none none).1 noneCase none none) ∧
      ∃ r1 r2 : CaseRow,
        ((upsert_insolvency_case (upsert_insolvency_case emptyDb noneCase none none).1
            noneCase none none).1).cases = emptyDb.cases ++ [r1, r2] ∧ r1.id ≠ r2.id) ∧
    (upsert_insolvency_case_flushed emptyDb blankCase none none =
        Except.ok (upsert_insolvency_case emptyDb blankCase none none) ∧
      upsert_insolvency_case_flushed (upsert_insolvency_case emptyDb blankCase none none).1
          blankCase none none = Except.error DbError.integrityError) :=
  ⟨(C10_amended_falsy_message_number emptyDb noneCase none none none none
      (by decide) (by decide)).2.1 rfl,
   (C10_amended_falsy_message_number emptyDb blankCase none none none none
      (by decide) (by decide)).2.2 rfl (by decide)⟩

/-- C9.  In the daily sync loop, a case whose step (process plus commit)
raises is rolled back without affecting the session state seen by any other
case: the run's final state is as if the failing case were absent from the
list, and the loop continues through every subsequent case; and a failed day
fetch ends the run at once with no case processed.  Both outcomes return
normally — the run raises for neither. -/
theorem C9_per_case_isolation :
    (∀ (step : CaseStep) (pre post : List CaseDict) (c : CaseDict) (db : Db),
      (∀ d, step c d = Except.error ()) →
      run_case_loop step (pre ++ c :: post) db = run_case_loop step (pre ++ post) db) ∧
    (∀ (step : CaseStep) (db : Db), run_daily_sync step (Except.error ()) db = db) := by
  constructor
  · intro step pre post c db hc
    induction pre generalizing db with
    | nil =>
      simp only [List.nil_append, run_case_loop, hc db]
    | cons a pre ih =>
      simp only [List.cons_append, run_case_loop]
      cases hs : step a db <;> simp [ih]
  · intro step db
    rfl

/-- C9, witnessed on a concrete failing step: the run over the single
rejected case equals the run over the empty list. -/
theorem C9_per_case_isolation_witness :
    run_case_loop markedStep [badCase] emptyDb = run_case_loop markedStep [] emptyDb :=
  C9_per_case_isolation.1 markedStep [] [] badCase emptyDb (fun _ => rfl)

theorem enrichCompany_raised (case : CaseDict) :
    enrichCompany case NetResult.raised = none := by
  unfold enrichCompany
  split <;> rfl

/-- C8.  Processing a case never propagates an upstream enrichment failure:
with the registry call raising and the lawyer call succeeding on a profile
that names the lawyer, the case upsert is still performed — the upserted row
carries the case's data, references the upserted lawyer row, has a null
registry id when the case carried none, and no company row is written. -/
theorem C8_partial_enrichment_persisted (db : Db) (case : CaseDict)
    (payload : LawyerPayload) (prof : Profile) (n : Str)
    (hlaw : truthy case.lawyer_name = true)
    (hprof : payload.profile = some prof)
    (hname : prof.name = some n)
    (hn : n.isEmpty = false)
    (hcvr : case.cvr = none) :
    ((process_insolvency_case db case NetResult.raised
        (NetResult.ok (some payload))).1).companies = db.companies ∧
    ((process_insolvency_case db case NetResult.raised
        (NetResult.ok (some payload))).2).cvr = none ∧
    (∃ lrow : LawyerRow,
      ((process_insolvency_case db case NetResult.raised
          (NetResult.ok (some payload))).2).lawyer_id = some lrow.id ∧
      lrow ∈ ((process_insolvency_case db case NetResult.raised
          (NetResult.ok (some payload))).1).lawyers ∧
      lrow.name = n) ∧
    ((process_insolvency_case db case NetResult.raised
        (NetResult.ok (some payload))).2).raw = case ∧
    (process_insolvency_case db case NetResult.raised
        (NetResult.ok (some payload))).2 ∈
      ((process_insolvency_case db case NetResult.raised
          (NetResult.ok (some payload))).1).cases := by
  have hfname : (_build_lawyer_fields (payload.profile.getD
      (Profile.mk none none none))).name = some n := by
    rw [hprof]
    exact hname
  obtain ⟨lrow, hrow2, hrowmem, hrowname, hrowcases, hrowcomp⟩ :=
    upsert_lawyer_ok db (_build_lawyer_fields (payload.profile.getD
      (Profile.mk none none none))) n hfname hn
  have hls : enrichLawyer db case (NetResult.ok (some payload)) =
      upsert_lawyer db (_build_lawyer_fields (payload.profile.getD
        (Profile.mk none none none))) := by
    simp [enrichLawyer, hlaw]
  have hproc : process_insolvency_case db case NetResult.raised
      (NetResult.ok (some payload)) =
      upsert_insolvency_case (upsert_lawyer db (_build_lawyer_fields
        (payload.profile.getD (Profile.mk none none none)))).1 case none
        ((upsert_lawyer db (_build_lawyer_fields
          (payload.profile.getD (Profile.mk none none none)))).2) := by
    simp only [process_insolvency_case, enrichCompany_raised, hls]
  obtain ⟨hraw, hcvr2, hlid, hmem, hlaws, hcomps⟩ :=
    upsert_case_row (upsert_lawyer db (_build_lawyer_fields
      (payload.profile.getD (Profile.mk none none none)))).1 case none
      ((upsert_lawyer db (_build_lawyer_fields
        (payload.profile.getD (Profile.mk none none none)))).2)
  rw [hproc]
  refine ⟨?_, ?_, ?_, hraw, hmem⟩
  · rw [hcomps]
    exact hrowcomp
  · rw [hcvr2]
    exact hcvr
  · refine ⟨lrow, ?_, ?_, hrowname⟩
    · rw [hlid, hrow2]
    · rw [hlaws]
      exact hrowmem

/-- C8, witnessed on the empty session and a case naming only a lawyer, with
the registry call failing and the lawyer directory returning one profile. -/
theorem C8_partial_enrichment_persisted_witness :
    ((process_insolvency_case emptyDb lawyerOnlyCase NetResult.raised
        (NetResult.ok (some janePayload))).1).companies = emptyDb.companies ∧
    ((process_insolvency_case emptyDb lawyerOnlyCase NetResult.raised
        (NetResult.ok (some janePayload))).2).cvr = none ∧
    (∃ lrow : LawyerRow,
      ((process_insolvency_case emptyDb lawyerOnlyCase NetResult.raised
          (NetResult.ok (some janePayload))).2).lawyer_id = some lrow.id ∧
      lrow ∈ ((process_insolvency_case emptyDb lawyerOnlyCase NetResult.raised
          (NetResult.ok (some janePayload))).1).lawyers ∧
      lrow.name = ("Jane Doe".toList)) ∧
    ((process_insolvency_case emptyDb lawyerOnlyCase NetResult.raised
        (NetResult.ok (some janePayload))).2).raw = lawyerOnlyCase ∧
    (process_insolvency_case emptyDb lawyerOnlyCase NetResult.raised
        (NetResult.ok (some janePayload))).2 ∈
      ((process_insolvency_case emptyDb lawyerOnlyCase NetResult.raised
          (NetResult.ok (some janePayload))).1).cases :=
  C8_partial_enrichment_persisted emptyDb lawyerOnlyCase janePayload
    (Profile.mk (some ("Jane Doe".toList)) none none) ("Jane Doe".toList)
    (by decide) (by decide) (by decide) (by decide) (by decide)

end Aggregator

